import Mathlib

/-!
# Verification development for `src/App.jsx`

`App.jsx` defines two React components:

* `Model` owns an `AnimationMixer`, the list `animationActions` of clip
  controllers, a self-rescheduling `animate` frame callback and the exposed
  method `playAllAnimations`;
* `GLBViewer` owns the flag `playing`, the two handles `nitrogenRef` and
  `oxygenRef`, and the click handler `playAllModels`.

The components call into three.js (`AnimationMixer`, `AnimationAction`), into
the window (`requestAnimationFrame`, `cancelAnimationFrame`, `setTimeout`) and
into the asset cache behind `useGLTF`.  Those collaborators are not part of the
sources; the parts of them that `App.jsx` drives are modelled below, each under
a doc comment that says so.  Finite times are exact rationals (`ℚ`), the
mixer's delta `0.01` is the rational `1/100`; a controller's time cursor can
also be `NaN`, which a clip of duration zero produces.
-/

namespace App

/-! ## three.js: clips, clip controllers, mixer -/

/-- Modelled from the spec: the loop-mode constants of three.js (`THREE.LoopOnce`,
`THREE.LoopRepeat`, `THREE.LoopPingPong`) are not in the sources; `App.jsx`
line 23 uses `THREE.LoopRepeat`, the spec's "loop mode (repeating)". -/
inductive LoopMode where
  | LoopOnce
  | LoopRepeat
  | LoopPingPong
deriving DecidableEq, Repr

/-- Modelled from the spec: the value of a clip controller's `repetitions`
field (three.js, not in the sources).  The constructor stores `Infinity`;
`setLoop(mode, repetitions)` stores its second argument, so the one-argument
call of `App.jsx` line 23 stores `undefined`. -/
inductive Repetitions where
  | undefined
  | infinity
  | finite (n : Int)
deriving DecidableEq, Repr

/-- Modelled from the spec: a clip ("a named animation track bundled with an
asset"; three.js `AnimationClip`, not in the sources), reduced to the identity
`uuid` under which a mixer caches its controller and to its `duration`. -/
structure AnimationClip where
  uuid : Nat
  duration : ℚ
deriving DecidableEq, Repr

/-- Modelled from the spec: the value of a clip controller's `time` field
(three.js, not in the sources): a finite number or `NaN`. -/
inductive Cursor where
  | nan
  | num (q : ℚ)
deriving DecidableEq, Repr

/-- The JavaScript comparison `time > 0`, false for `NaN`. -/
def Cursor.positive : Cursor → Bool
  | .nan => false
  | .num q => decide (0 < q)

/-- Modelled from the spec: the value of a clip controller's `_loopCount` field
(three.js, not in the sources): an integer, `Infinity` or `NaN`. -/
inductive LoopCount where
  | nan
  | infinity
  | count (n : Int)
deriving DecidableEq, Repr

/-- The JavaScript sum `loopCount + n` for an integer `n`. -/
def LoopCount.add : LoopCount → Int → LoopCount
  | .nan, _ => .nan
  | .infinity, _ => .infinity
  | .count k, n => .count (k + n)

/-- The JavaScript sum `loopCount + Infinity`. -/
def LoopCount.addInfinity : LoopCount → LoopCount
  | .nan => .nan
  | _ => .infinity

/-- Modelled from the spec: a clip controller ("runtime playback handle for one
clip against one mixer (play/stop/reset, loop mode, clamp-on-finish)"; three.js
`AnimationAction`, not in the sources).  The fields are the ones that
`reset`, `play`, `stop`, `setLoop`, `clampWhenFinished =` and the mixer's
`update` read or write.  `active` records membership in the mixer's range of
active actions.  `timeScale` and `weight` keep their constructor value `1`
throughout, since `App.jsx` never writes them, and are not fields. -/
structure AnimationAction where
  clip : AnimationClip
  loop : LoopMode
  repetitions : Repetitions
  clampWhenFinished : Bool
  paused : Bool
  enabled : Bool
  time : Cursor
  loopCount : LoopCount
  startTime : Option ℚ
  active : Bool
deriving DecidableEq, Repr

/-- Modelled from the spec: a mixer ("per-instance playback clock and blender
that advances and combines active clip controllers"; three.js `AnimationMixer`,
not in the sources): the clock `time` and the controllers it has created, in
creation order.  A controller is named by its position in `actions`. -/
structure AnimationMixer where
  time : ℚ
  actions : List AnimationAction
deriving DecidableEq, Repr

namespace AnimationAction

/-- Modelled from the spec: the controller three.js constructs for a clip
(`new AnimationAction(mixer, clip)`, not in the sources): repeating with
`Infinity` repetitions, not clamping, not paused, enabled, at time `0`,
`_loopCount = -1`, not scheduled, not active. -/
def create (clip : AnimationClip) : AnimationAction where
  clip := clip
  loop := .LoopRepeat
  repetitions := .infinity
  clampWhenFinished := false
  paused := false
  enabled := true
  time := .num 0
  loopCount := .count (-1)
  startTime := none
  active := false

/-- Modelled from the spec: `action.setLoop(mode, repetitions)` of three.js (not
in the sources) stores both arguments. -/
def setLoop (a : AnimationAction) (mode : LoopMode) (repetitions : Repetitions) :
    AnimationAction :=
  { a with loop := mode, repetitions := repetitions }

/-- Modelled from the spec: `action.reset()` of three.js (not in the sources):
"resets every clip controller's time cursor to zero"; it also unpauses,
enables, forgets previous loops and forgets a scheduled start. -/
def reset (a : AnimationAction) : AnimationAction :=
  { a with paused := false, enabled := true, time := .num 0, loopCount := .count (-1),
           startTime := none }

/-- Modelled from the spec: `action.play()` of three.js (not in the sources)
activates the controller in its mixer. -/
def play (a : AnimationAction) : AnimationAction :=
  { a with active := true }

/-- Modelled from the spec: `action.stop()` of three.js (not in the sources)
deactivates the controller in its mixer and then resets it. -/
def stop (a : AnimationAction) : AnimationAction :=
  reset { a with active := false }

/-- Modelled from the spec: `action.isRunning()` of three.js (not in the
sources), the spec's "playing state": enabled, not paused, not waiting for a
scheduled start, and active in its mixer (its `timeScale` is the constant 1). -/
def isRunning (a : AnimationAction) : Bool :=
  a.enabled && !a.paused && a.startTime.isNone && a.active

/-- Modelled from the spec: whether `repetitions - loopCount <= 0` in three.js
(not in the sources).  With `repetitions` undefined the difference is `NaN`;
with `Infinity` it is `Infinity` or `NaN`; with a finite `n` it is an integer,
`-Infinity` for an infinite loop count, or `NaN` for a `NaN` loop count.  Only
an integer at most `0` and `-Infinity` pass the comparison. -/
def noRepetitionsPending (r : Repetitions) (loopCount : LoopCount) : Bool :=
  match r, loopCount with
  | .finite n, .count k => decide (n - k ≤ 0)
  | .finite _, .infinity => true
  | _, _ => false

/-- Finishing a controller in three.js `_updateTime` (not in the sources): it is
paused when `clampWhenFinished` is set and disabled otherwise, and its cursor is
set to the given end. -/
def finish (a : AnimationAction) (time : ℚ) : AnimationAction :=
  if a.clampWhenFinished then { a with paused := true, time := .num time }
  else { a with enabled := false, time := .num time }

/-- Modelled from the spec: `action._updateTime(deltaTime)` of three.js (not in
the sources), for a clip of duration at least zero.  A zero delta leaves the
controller untouched.  A `NaN` cursor stays `NaN`, since every comparison with
it is false.  In `LoopOnce` mode the cursor is clamped to `[0, duration]` and
the controller finishes at either end.  In the repeating modes a cursor that
leaves `[0, duration)` wraps around: `loopDelta = floor(time / duration)`,
`time -= duration * loopDelta`, `loopCount += abs(loopDelta)`, and the
controller finishes when no repetition is pending.  For a duration of zero the
quotient is infinite (or `NaN` when the new time is zero) and its product with
the duration is `NaN`, so the cursor becomes `NaN`.  For a nonzero duration the
wrap is computed here over exact rationals, where three.js rounds to doubles,
so the wrapped cursor and loop count are those of three.js only when its
division is exact (as for a duration equal to the delta).  The theorems on a
click followed by a tick use only the branch without a wrap and the
zero-duration branch, where no rounding is involved. -/
def updateTime (a : AnimationAction) (deltaTime : ℚ) : AnimationAction :=
  let duration := a.clip.duration
  if deltaTime = 0 then a
  else if a.loop = .LoopOnce then
    let loopCount : LoopCount := if a.loopCount = .count (-1) then .count 0 else a.loopCount
    match a.time with
    | .nan => { a with loopCount := loopCount }
    | .num before =>
      let time := before + deltaTime
      if time ≥ duration then finish { a with loopCount := loopCount } duration
      else if time < 0 then finish { a with loopCount := loopCount } 0
      else { a with loopCount := loopCount, time := .num time }
  else
    let loopCount : LoopCount :=
      if a.loopCount = .count (-1) ∧ deltaTime ≥ 0 then .count 0 else a.loopCount
    match a.time with
    | .nan => { a with loopCount := loopCount }
    | .num before =>
      let time := before + deltaTime
      if time ≥ duration ∨ time < 0 then
        if duration = 0 then
          let loopCount := if time = 0 then LoopCount.nan else loopCount.addInfinity
          if noRepetitionsPending a.repetitions loopCount then
            a.finish (if deltaTime > 0 then duration else 0)
          else { a with loopCount := loopCount, time := .nan }
        else
          let loopDelta : Int := ⌊time / duration⌋
          let loopCount := loopCount.add |loopDelta|
          if noRepetitionsPending a.repetitions loopCount then
            a.finish (if deltaTime > 0 then duration else 0)
          else { a with loopCount := loopCount, time := .num (time - duration * loopDelta) }
      else { a with loopCount := loopCount, time := .num time }

/-- Modelled from the spec: `action._update(time, deltaTime, timeDirection)` of
three.js (not in the sources), called by the mixer for each active controller.
A disabled controller is skipped; a scheduled start is honoured; a paused
controller has effective time scale `0`, any other the constant `1`. -/
def update (a : AnimationAction) (time deltaTime timeDirection : ℚ) : AnimationAction :=
  if !a.enabled then a
  else
    let step : AnimationAction × ℚ :=
      match a.startTime with
      | none => (a, deltaTime)
      | some startTime =>
        let timeRunning := (time - startTime) * timeDirection
        if timeRunning < 0 ∨ timeDirection = 0 then (a, 0)
        else ({ a with startTime := none }, timeDirection * timeRunning)
    let timeScale : ℚ := if step.1.paused then 0 else 1
    updateTime step.1 (step.2 * timeScale)

end AnimationAction

namespace AnimationMixer

/-- Modelled from the spec: `new THREE.AnimationMixer(scene)` (not in the
sources): clock at `0`, no controller created yet. -/
def create : AnimationMixer where
  time := 0
  actions := []

/-- Applies `f` to the controller at position `h`; the JavaScript code calls a
method on the controller object it holds. -/
def onAction (m : AnimationMixer) (h : Nat) (f : AnimationAction → AnimationAction) :
    AnimationMixer :=
  { m with actions := m.actions.modify f h }

/-- Modelled from the spec: `mixer.clipAction(clip)` of three.js (not in the
sources): the controller already created for this clip (found by the clip's
`uuid`) when there is one, otherwise a newly created, inactive controller. -/
def clipAction (m : AnimationMixer) (clip : AnimationClip) : Nat × AnimationMixer :=
  let i := m.actions.findIdx (fun a => a.clip.uuid == clip.uuid)
  if i < m.actions.length then (i, m)
  else (m.actions.length, { m with actions := m.actions ++ [AnimationAction.create clip] })

/-- Modelled from the spec: `mixer.stopAllAction()` of three.js (not in the
sources): "stops any currently playing clip controllers", that is, calls
`stop()` on every active controller. -/
def stopAllAction (m : AnimationMixer) : AnimationMixer :=
  { m with actions := m.actions.map (fun a => if a.active then a.stop else a) }

/-- Modelled from the spec: `mixer.update(deltaTime)` of three.js (not in the
sources): "increments the mixer's internal clock" by the delta (the mixer's
`timeScale` is the constant 1) and updates every active controller. -/
def update (m : AnimationMixer) (deltaTime : ℚ) : AnimationMixer :=
  let time := m.time + deltaTime
  let timeDirection : ℚ := SignType.sign deltaTime
  { time := time
    actions := m.actions.map
      (fun a => if a.active then a.update time deltaTime timeDirection else a) }

end AnimationMixer

/-! ## The window: frame callbacks -/

/-- The two viewer slots of `GLBViewer`: the `Model` mounted with
`ref={nitrogenRef}` (line 112) and the one with `ref={oxygenRef}` (line 127). -/
inductive Slot where
  | nitrogen
  | oxygen
deriving DecidableEq, Repr

/-- Modelled from the spec: the window's list of pending frame callbacks (the
"scheduling primitive" `requestAnimationFrame`, not in the sources).  An entry
is a handle and the party that registered it: `some slot` for the `animate`
closure of the `Model` in that slot, `none` for any other code of the page.
`frameCallbackId` is the last handle handed out. -/
structure Window where
  frameCallbacks : List (Nat × Option Slot)
  frameCallbackId : Nat
deriving DecidableEq, Repr

/-- Modelled from the spec: `requestAnimationFrame(callback)` (not in the
sources): "register a callback to run before the next frame render"; the handle
is the next identifier. -/
def requestAnimationFrame (w : Window) (callback : Option Slot) : Nat × Window :=
  let handle := w.frameCallbackId + 1
  (handle, { frameCallbacks := w.frameCallbacks ++ [(handle, callback)],
             frameCallbackId := handle })

/-- Modelled from the spec: `cancelAnimationFrame(handle)` (not in the sources)
removes the entry with that handle; an `undefined` handle removes nothing. -/
def cancelAnimationFrame (w : Window) (handle : Option Nat) : Window :=
  match handle with
  | none => w
  | some h => { w with frameCallbacks := w.frameCallbacks.filter (fun e => e.1 != h) }

/-! ## `Model` (lines 13 to 65) -/

/-- State of one mounted `Model`: `mixer` (line 16), the React state
`animationActions` (line 17) as a list of controller positions in the mixer,
and the variable `animationFrameId` of the tick effect (line 36). -/
structure Model where
  mixer : AnimationMixer
  animationActions : List Nat
  animationFrameId : Option Nat
deriving DecidableEq, Repr

namespace Model

/-- First render of a `Model` (lines 16, 17, 36): a new mixer, `useState([])`,
`let animationFrameId;`. -/
def mount : Model where
  mixer := AnimationMixer.create
  animationActions := []
  animationFrameId := none

/-- The `animations.map` of the setup effect (lines 21 to 26): for each clip in
order, `mixer.clipAction(clip)`, `setLoop(THREE.LoopRepeat)`,
`clampWhenFinished = true`; returns the controllers and the mixer. -/
def setupActions : List AnimationClip → AnimationMixer → List Nat × AnimationMixer
  | [], mixer => ([], mixer)
  | clip :: rest, mixer =>
    let created := mixer.clipAction clip
    let action := created.1
    let mixer := created.2.onAction action (fun a => a.setLoop .LoopRepeat .undefined)
    let mixer := mixer.onAction action (fun a => { a with clampWhenFinished := true })
    let others := setupActions rest mixer
    (action :: others.1, others.2)

/-- The setup effect (lines 19 to 28): builds the controllers and stores them
with `setAnimationActions`; the stored list is what the next render's
`playAllAnimations` sees. -/
def setupEffect (animations : List AnimationClip) (s : Model) : Model :=
  let built := setupActions animations s.mixer
  { s with mixer := built.2, animationActions := built.1 }

/-- The cleanup of the setup effect (lines 29 to 32): `stop()` on each
controller it built, then `mixer.stopAllAction()`. -/
def cleanupEffect (s : Model) : Model :=
  let mixer := s.animationActions.foldl (fun m h => m.onAction h AnimationAction.stop) s.mixer
  { s with mixer := mixer.stopAllAction }

/-- The exposed method `playAllAnimations` (lines 47 to 53):
`mixer.stopAllAction()`, then `reset()` and `play()` on each element of
`animationActions`. -/
def playAllAnimations (s : Model) : Model :=
  let mixer := s.mixer.stopAllAction
  { s with mixer :=
      s.animationActions.foldl (fun m h => m.onAction h (fun a => a.reset.play)) mixer }

/-- The frame callback `animate` (lines 37 to 40) of the `Model` in slot `self`:
`mixer.update(0.01)`, then `animationFrameId = requestAnimationFrame(animate)`.
The timestamp the window passes to a frame callback is not a parameter of the
source function; it is listed here to show that nothing depends on it. -/
def animate (self : Slot) (_timestamp : ℚ) (s : Model) (w : Window) : Model × Window :=
  let mixer := s.mixer.update (1 / 100)
  let requested := requestAnimationFrame w (some self)
  ({ s with mixer := mixer, animationFrameId := some requested.1 }, requested.2)

/-- The tick effect on mount (line 41): `animate()` is called directly once. -/
def tickEffect (self : Slot) (s : Model) (w : Window) : Model × Window :=
  animate self 0 s w

/-- The cleanup of the tick effect (lines 42 to 44):
`cancelAnimationFrame(animationFrameId)`. -/
def tickCleanup (s : Model) (w : Window) : Window :=
  cancelAnimationFrame w s.animationFrameId

/-- The controller at position `h` of the model's mixer. -/
def action? (s : Model) (h : Nat) : Option AnimationAction :=
  s.mixer.actions[h]?

/-- Every element of `animationActions` is a controller of the model's mixer. -/
def WellFormed (s : Model) : Prop :=
  ∀ h ∈ s.animationActions, h < s.mixer.actions.length

instance (s : Model) : Decidable s.WellFormed := by
  unfold WellFormed; infer_instance

/-- The window runs the model's frame callback once per timestamp of the list,
in order. -/
def runTicks (self : Slot) : List ℚ → Model × Window → Model × Window
  | [], p => p
  | timestamp :: rest, p => runTicks self rest (animate self timestamp p.1 p.2)

/-- Every active controller of the mixer is an element of `animationActions`. -/
def ActiveListed (s : Model) : Prop :=
  ∀ k a, s.mixer.actions[k]? = some a → a.active = true → k ∈ s.animationActions

/-- States of a mounted `Model`: the first render; a run of the setup effect on
some clip list (after the cleanup of the previous run, which on the first run
finds nothing to stop); a call of `playAllAnimations`; a tick. -/
inductive Reachable : Model → Prop where
  | mount : Reachable mount
  | setup (s : Model) (animations : List AnimationClip) :
      Reachable s → Reachable (setupEffect animations (cleanupEffect s))
  | replay (s : Model) : Reachable s → Reachable s.playAllAnimations
  | tick (s : Model) (self : Slot) (timestamp : ℚ) (w : Window) :
      Reachable s → Reachable (animate self timestamp s w).1

end Model

/-! ## The tick loop of one mounted `Model` (lines 35 to 45) -/

/-- One `Model` in slot `self` together with the window it schedules frames
on.  `mounted` is false once the component has unmounted; `animateCalls`
counts the invocations of `animate` (a spy on the callback). -/
structure TickLoop where
  model : Model
  window : Window
  mounted : Bool
  animateCalls : Nat
deriving DecidableEq, Repr

namespace TickLoop

/-- The frame callbacks of the window that are `animate` closures of the
`Model` in slot `self`. -/
def pending (self : Slot) (t : TickLoop) : List (Nat × Option Slot) :=
  t.window.frameCallbacks.filter (fun e => e.2 == some self)

/-- Mounting (lines 19 to 45) in a window `w`: the setup effect on the asset's
clips, then the tick effect, which calls `animate()` once. -/
def start (self : Slot) (animations : List AnimationClip) (w : Window) : TickLoop :=
  let ticked := Model.tickEffect self (Model.setupEffect animations Model.mount) w
  { model := ticked.1, window := ticked.2, mounted := true, animateCalls := 1 }

/-- The window runs the frame callback with handle `h`: the entry leaves the
list, then `animate` runs with the frame's timestamp. -/
def runFrame (self : Slot) (h : Nat) (timestamp : ℚ) (t : TickLoop) : TickLoop :=
  let ticked := Model.animate self timestamp t.model (cancelAnimationFrame t.window (some h))
  { t with model := ticked.1, window := ticked.2, animateCalls := t.animateCalls + 1 }

/-- Unmounting runs both cleanups (lines 29 to 32 and 42 to 44). -/
def unmount (t : TickLoop) : TickLoop :=
  { t with model := t.model.cleanupEffect,
           window := Model.tickCleanup t.model t.window,
           mounted := false }

/-- One step of the tick loop of the `Model` in slot `self`: the window runs
one of its pending `animate` callbacks; another party registers a frame
callback or has one of its callbacks run or cancelled; the mounted model's
`playAllAnimations` is called; the model unmounts. -/
inductive Step (self : Slot) : TickLoop → TickLoop → Prop where
  | frame (t : TickLoop) (h : Nat) (timestamp : ℚ) :
      (h, some self) ∈ t.window.frameCallbacks → Step self t (runFrame self h timestamp t)
  | otherRequest (t : TickLoop) (o : Option Slot) :
      o ≠ some self →
      Step self t { t with window := (requestAnimationFrame t.window o).2 }
  | otherDone (t : TickLoop) (h : Nat) (o : Option Slot) :
      o ≠ some self → (h, o) ∈ t.window.frameCallbacks →
      Step self t { t with window :=
        { t.window with
          frameCallbacks := t.window.frameCallbacks.filter (fun e => e != (h, o)) } }
  | replay (t : TickLoop) :
      t.mounted = true → Step self t { t with model := t.model.playAllAnimations }
  | unmount (t : TickLoop) :
      t.mounted = true → Step self t t.unmount

/-- States the tick loop reaches from a mount in a window `w`. -/
inductive Reachable (self : Slot) (animations : List AnimationClip) (w : Window) :
    TickLoop → Prop where
  | start : Reachable self animations w (start self animations w)
  | step (t t2 : TickLoop) :
      Reachable self animations w t → Step self t t2 → Reachable self animations w t2

/-- States reached from `t` by any number of steps. -/
inductive Steps (self : Slot) (t : TickLoop) : TickLoop → Prop where
  | refl : Steps self t t
  | step (t2 t3 : TickLoop) : Steps self t t2 → Step self t2 t3 → Steps self t t3

end TickLoop

/-! ## `GLBViewer` (lines 71 to 135) -/

/-- State of the mounted `GLBViewer`: the React state `playing` (line 72) and
the two handles `nitrogenRef.current`, `oxygenRef.current` (lines 73, 74), each
`none` until its `Model` has mounted.  `timeouts` lists the due times (in
milliseconds) of the pending `setTimeout` callbacks of line 81, `now` is the
window's clock, and `calls` records the invocations of `playAllAnimations` in
order (a spy on the handles). -/
structure GLBViewer where
  playing : Bool
  nitrogenRef : Option Model
  oxygenRef : Option Model
  timeouts : List Nat
  now : Nat
  calls : List Slot
deriving DecidableEq, Repr

namespace GLBViewer

/-- First render of `GLBViewer`: `useState(false)`, two empty refs. -/
def mount : GLBViewer where
  playing := false
  nitrogenRef := none
  oxygenRef := none
  timeouts := []
  now := 0
  calls := []

/-- The handle stored for a slot. -/
def current (s : GLBViewer) : Slot → Option Model
  | .nitrogen => s.nitrogenRef
  | .oxygen => s.oxygenRef

/-- Stores a model state behind a slot's handle. -/
def setCurrent (s : GLBViewer) (slot : Slot) (m : Option Model) : GLBViewer :=
  match slot with
  | .nitrogen => { s with nitrogenRef := m }
  | .oxygen => { s with oxygenRef := m }

/-- The method call `ref.current.playAllAnimations()`: a `TypeError` when the
handle is empty, otherwise the model's `playAllAnimations`, recorded in
`calls`. -/
def callPlayAllAnimations (slot : Slot) (s : GLBViewer) : Except String GLBViewer :=
  match s.current slot with
  | none => .error "TypeError"
  | some m =>
    .ok { (s.setCurrent slot (some m.playAllAnimations)) with calls := s.calls ++ [slot] }

/-- The delay of the `setTimeout` of line 81, in milliseconds. -/
def cooldown : Nat := 1000

/-- The click handler `playAllModels` (lines 76 to 82): `setPlaying(true)`, the
two guarded calls, `setTimeout(() => setPlaying(false), 1000)`. -/
def playAllModels (s : GLBViewer) : Except String GLBViewer := do
  let s := { s with playing := true }
  let s ← if s.nitrogenRef.isSome then callPlayAllAnimations .nitrogen s else pure s
  let s ← if s.oxygenRef.isSome then callPlayAllAnimations .oxygen s else pure s
  pure { s with timeouts := s.timeouts ++ [s.now + cooldown] }

/-- The timeout callback `() => setPlaying(false)` of line 81 runs and its
entry leaves the list of pending timeouts. -/
def fireTimeout (due : Nat) (s : GLBViewer) : GLBViewer :=
  { s with playing := false, timeouts := s.timeouts.erase due }

/-- The button's `disabled={playing}` (line 90). -/
def disabled (s : GLBViewer) : Bool := s.playing

/-- What can happen to the mounted `GLBViewer`. -/
inductive Event where
  | click
  | timeout (due : Nat)
  | elapse (ms : Nat)
  | models (nitrogen oxygen : Option Model)
deriving DecidableEq, Repr

/-- One step of the shell: a click is dispatched to `playAllModels` only when the
button is not disabled; a pending timeout fires no earlier than its due time;
time passes; the two `Model`s mount, tick or unmount, which changes what the
handles point to. -/
inductive Step : GLBViewer → Event → GLBViewer → Prop where
  | click (s s2 : GLBViewer) :
      s.disabled = false → playAllModels s = .ok s2 → Step s .click s2
  | timeout (s : GLBViewer) (due : Nat) :
      due ∈ s.timeouts → due ≤ s.now → Step s (.timeout due) (fireTimeout due s)
  | elapse (s : GLBViewer) (ms : Nat) :
      Step s (.elapse ms) { s with now := s.now + ms }
  | models (s : GLBViewer) (n o : Option Model) :
      Step s (.models n o) { s with nitrogenRef := n, oxygenRef := o }

/-- States the shell reaches from its first render. -/
inductive Reachable : GLBViewer → Prop where
  | mount : Reachable mount
  | step (s s2 : GLBViewer) (e : Event) : Reachable s → Step s e s2 → Reachable s2

end GLBViewer

/-! ## The asset cache behind `useGLTF` (lines 15, 110, 127, 138, 139) -/

/-- The paths of the two module-level `useGLTF.preload` calls (lines 138, 139). -/
def preloadPaths : List String := ["/nitrogen.glb", "/oksigen.glb"]

/-- The `url` props of the two mounted `Model`s (lines 110 and 127). -/
def mountedPaths : List String := ["/Nitrogen.glb", "/Oksigen.glb"]

/-- Modelled from the spec: the asset cache behind `useGLTF` (not in the
sources), "a path→asset cache" populated at process start and "keyed by
path"; reduced to its list of keys, compared as strings. -/
abbrev AssetCache := List String

/-- Modelled from the spec: `useGLTF.preload(path)` (not in the sources), an
"idempotent accessor": the path becomes a key unless it already is one. -/
def preload (cache : AssetCache) (path : String) : AssetCache :=
  if path ∈ cache then cache else cache ++ [path]

/-- Modelled from the spec: the lookup `useGLTF(url)` starts with (not in the
sources): a hit exactly when the path is a key of the cache. -/
def cacheHit (cache : AssetCache) (path : String) : Bool :=
  cache.contains path

/-- The cache after the module-level preload calls, starting empty. -/
def preloaded : AssetCache :=
  preloadPaths.foldl preload []

/-- Letter case removed from a path, character by character. -/
def lowerCase (path : String) : List Char :=
  path.data.map Char.toLower

/-! ## Sample states -/

/-- A clip exactly as long as one tick's delta. -/
def shortClip : AnimationClip := { uuid := 1, duration := 1 / 100 }

/-- A clip of two time units. -/
def longClip : AnimationClip := { uuid := 2, duration := 2 }

/-- A clip of duration zero (all of its keyframes are at time zero). -/
def stillClip : AnimationClip := { uuid := 3, duration := 0 }

/-- A model right after mounting an asset whose only clip is `shortClip`. -/
def shortModel : Model := Model.setupEffect [shortClip] Model.mount

/-- A model right after mounting an asset whose only clip is `longClip`. -/
def longModel : Model := Model.setupEffect [longClip] Model.mount

/-- A model right after mounting an asset whose only clip is `stillClip`. -/
def stillModel : Model := Model.setupEffect [stillClip] Model.mount

/-- A model in mid-playback: one controller active but paused at `3/2` in its
second loop, one controller stopped. -/
def sampleModel : Model where
  mixer :=
    { time := 5 / 2
      actions :=
        [ { clip := longClip, loop := .LoopRepeat, repetitions := .undefined,
            clampWhenFinished := true, paused := true, enabled := true, time := .num (3 / 2),
            loopCount := .count 1, startTime := none, active := true },
          { clip := shortClip, loop := .LoopRepeat, repetitions := .undefined,
            clampWhenFinished := true, paused := false, enabled := true, time := .num 0,
            loopCount := .count (-1), startTime := none, active := false } ] }
  animationActions := [0, 1]
  animationFrameId := some 4

/-- A window in which another party has one frame callback pending. -/
def sampleWindow : Window := { frameCallbacks := [(3, none)], frameCallbackId := 3 }

/-- A shell whose two models have mounted assets with the one clip `stillClip`. -/
def stillViewer : GLBViewer :=
  { GLBViewer.mount with nitrogenRef := some stillModel, oxygenRef := some stillModel }

/-- A shell with `sampleModel` in the nitrogen slot and `longModel` in the
oxygen slot. -/
def sampleViewer : GLBViewer :=
  { GLBViewer.mount with nitrogenRef := some sampleModel, oxygenRef := some longModel }

/-- The shell `sampleViewer` after `nitrogenRef.current.playAllAnimations()`. -/
def sampleViewerReplayed : GLBViewer :=
  { sampleViewer with
    nitrogenRef := some sampleModel.playAllAnimations, calls := [Slot.nitrogen] }

/-- A model of an asset without clips, after its setup effect and one tick. -/
def tickedEmptyModel : Model :=
  (Model.animate .nitrogen 0 (Model.setupEffect [] Model.mount.cleanupEffect) sampleWindow).1

/-- A tick loop mounted in `sampleWindow`, after one frame and the unmount. -/
def stoppedLoop : TickLoop :=
  (TickLoop.runFrame .nitrogen 4 0 (TickLoop.start .nitrogen [longClip] sampleWindow)).unmount

/-- The shell `stillViewer` after one click. -/
def stillViewerClicked : GLBViewer :=
  { stillViewer with
    playing := true
    nitrogenRef := some stillModel.playAllAnimations
    oxygenRef := some stillModel.playAllAnimations
    timeouts := [1000]
    calls := [Slot.nitrogen, Slot.oxygen] }

/-- The controller of `stillClip` one tick after a replay: still active, its
time cursor `NaN` and its loop count infinite. -/
def stillActionTicked : AnimationAction where
  clip := stillClip
  loop := .LoopRepeat
  repetitions := .undefined
  clampWhenFinished := true
  paused := false
  enabled := true
  time := .nan
  loopCount := .infinity
  startTime := none
  active := true

/-- The controller of `shortClip` one tick after a replay: running, one loop
done, back at time cursor 0. -/
def shortActionTicked : AnimationAction where
  clip := shortClip
  loop := .LoopRepeat
  repetitions := .undefined
  clampWhenFinished := true
  paused := false
  enabled := true
  time := .num 0
  loopCount := .count 1
  startTime := none
  active := true

/-! ## Lemmas on the mixer -/

namespace AnimationMixer

theorem onAction_time (m : AnimationMixer) (h : Nat) (f : AnimationAction → AnimationAction) :
    (m.onAction h f).time = m.time := rfl

theorem onAction_length (m : AnimationMixer) (h : Nat) (f : AnimationAction → AnimationAction) :
    (m.onAction h f).actions.length = m.actions.length := by
  simp [onAction]

theorem onAction_get (m : AnimationMixer) (h k : Nat) (f : AnimationAction → AnimationAction) :
    (m.onAction h f).actions[k]? = (m.actions[k]?).map (fun a => if h = k then f a else a) := by
  simp [onAction, List.getElem?_modify]

theorem foldl_onAction_time (f : AnimationAction → AnimationAction) (hs : List Nat)
    (m : AnimationMixer) : (hs.foldl (fun m h => m.onAction h f) m).time = m.time := by
  induction hs generalizing m with
  | nil => rfl
  | cons h hs ih => simp [List.foldl_cons, ih, onAction_time]

theorem foldl_onAction_length (f : AnimationAction → AnimationAction) (hs : List Nat)
    (m : AnimationMixer) :
    (hs.foldl (fun m h => m.onAction h f) m).actions.length = m.actions.length := by
  induction hs generalizing m with
  | nil => rfl
  | cons h hs ih => simp [List.foldl_cons, ih, onAction_length]

/-- Calling an idempotent method on each controller of a list changes exactly
the controllers of the list, each as one call does. -/
theorem foldl_onAction_get (f : AnimationAction → AnimationAction)
    (hf : ∀ a, f (f a) = f a) (hs : List Nat) (m : AnimationMixer) (k : Nat) :
    (hs.foldl (fun m h => m.onAction h f) m).actions[k]?
      = (m.actions[k]?).map (fun a => if k ∈ hs then f a else a) := by
  induction hs generalizing m with
  | nil => simp
  | cons h hs ih =>
    rw [List.foldl_cons, ih, onAction_get]
    cases m.actions[k]? with
    | none => rfl
    | some a =>
      by_cases hk : h = k
      · subst hk
        by_cases hm : h ∈ hs <;> simp [hm, hf]
      · have hk2 : ¬ k = h := fun e => hk e.symm
        by_cases hm : k ∈ hs <;> simp [hm, hk, hk2]

theorem stopAllAction_time (m : AnimationMixer) : m.stopAllAction.time = m.time := rfl

theorem stopAllAction_get (m : AnimationMixer) (k : Nat) :
    m.stopAllAction.actions[k]?
      = (m.actions[k]?).map (fun a => if a.active then a.stop else a) := by
  simp [stopAllAction]

theorem update_time (m : AnimationMixer) (deltaTime : ℚ) :
    (m.update deltaTime).time = m.time + deltaTime := rfl

end AnimationMixer

namespace AnimationAction

theorem reset_play_idem (a : AnimationAction) : a.reset.play.reset.play = a.reset.play := rfl

theorem stop_idem (a : AnimationAction) : a.stop.stop = a.stop := rfl

end AnimationAction

namespace Model

/-- What `playAllAnimations` leaves at position `k` of the mixer. -/
theorem playAllAnimations_get (s : Model) (k : Nat) :
    s.playAllAnimations.action? k
      = (s.mixer.actions[k]?).map (fun a =>
          if k ∈ s.animationActions then
            (if a.active then a.stop else a).reset.play
          else if a.active then a.stop else a) := by
  unfold playAllAnimations action?
  simp only []
  rw [AnimationMixer.foldl_onAction_get _ AnimationAction.reset_play_idem,
    AnimationMixer.stopAllAction_get]
  cases s.mixer.actions[k]? with
  | none => rfl
  | some a => by_cases hk : k ∈ s.animationActions <;> simp [hk]

/-- C1: for every model state whose `animationActions` are controllers of its
mixer, whatever the prior state of those controllers, right after one call of
`playAllAnimations` every element of `animationActions` is at time cursor 0,
not paused, and running (active in the mixer). -/
theorem playAllAnimations_restarts_all (s : Model) (hwf : s.WellFormed) :
    ∀ h ∈ s.animationActions, ∃ a, s.playAllAnimations.action? h = some a
      ∧ a.time = .num 0 ∧ a.paused = false ∧ a.isRunning = true := by
  intro h hh
  have hlt := hwf h hh
  rw [playAllAnimations_get]
  obtain ⟨a, ha⟩ : ∃ a, s.mixer.actions[h]? = some a :=
    ⟨s.mixer.actions[h], List.getElem?_eq_getElem hlt⟩
  refine ⟨(if a.active then a.stop else a).reset.play, ?_, rfl, rfl, rfl⟩
  simp [ha, hh]

end Model

/-! ## The empty controller list -/

section
open AnimationMixer

theorem AnimationAction.finish_active (a : AnimationAction) (t : ℚ) :
    (a.finish t).active = a.active := by
  unfold AnimationAction.finish
  split_ifs <;> rfl

theorem AnimationAction.updateTime_active (a : AnimationAction) (d : ℚ) :
    (a.updateTime d).active = a.active := by
  obtain ⟨clip, loop, reps, clamp, paused, enabled, time, count, start, active⟩ := a
  cases time <;> dsimp only [AnimationAction.updateTime] <;> split_ifs <;>
    first | rfl | exact AnimationAction.finish_active _ _

theorem AnimationAction.update_active (a : AnimationAction) (t d dir : ℚ) :
    (a.update t d dir).active = a.active := by
  unfold AnimationAction.update
  simp only []
  by_cases he : (!a.enabled) = true
  · simp [he]
  · rw [if_neg he, AnimationAction.updateTime_active]
    cases a.startTime with
    | none => rfl
    | some st => simp only []; split_ifs <;> rfl

theorem AnimationMixer.stopAllAction_inactive (m : AnimationMixer) :
    ∀ a ∈ m.stopAllAction.actions, a.active = false := by
  intro a ha
  simp only [stopAllAction, List.mem_map] at ha
  obtain ⟨b, _, rfl⟩ := ha
  by_cases hb : b.active = true
  · simp [hb, AnimationAction.stop, AnimationAction.reset]
  · simp [hb]

theorem AnimationMixer.stopAllAction_of_inactive (m : AnimationMixer)
    (h : ∀ a ∈ m.actions, a.active = false) : m.stopAllAction = m := by
  cases m with
  | mk time actions =>
    simp only [stopAllAction, AnimationMixer.mk.injEq, true_and]
    conv_rhs => rw [← List.map_id actions]
    apply List.map_congr_left
    intro a ha
    simp [h a ha]

theorem AnimationMixer.onAction_inactive (m : AnimationMixer) (h : Nat)
    (f : AnimationAction → AnimationAction) (hf : ∀ a, (f a).active = a.active)
    (hm : ∀ a ∈ m.actions, a.active = false) :
    ∀ a ∈ (m.onAction h f).actions, a.active = false := by
  intro a ha
  obtain ⟨k, hk⟩ := List.mem_iff_getElem?.mp ha
  rw [onAction_get] at hk
  cases hb : m.actions[k]? with
  | none => simp [hb] at hk
  | some b =>
    have hbm : b ∈ m.actions := List.mem_iff_getElem?.mpr ⟨k, hb⟩
    simp only [hb, Option.map_some', Option.some.injEq] at hk
    subst hk
    split_ifs
    · rw [hf]; exact hm b hbm
    · exact hm b hbm

theorem AnimationMixer.clipAction_inactive (m : AnimationMixer) (clip : AnimationClip)
    (hm : ∀ a ∈ m.actions, a.active = false) :
    ∀ a ∈ (m.clipAction clip).2.actions, a.active = false := by
  intro a ha
  unfold clipAction at ha
  simp only [] at ha
  split_ifs at ha
  · exact hm a ha
  · simp only [List.mem_append, List.mem_singleton] at ha
    rcases ha with ha | rfl
    · exact hm a ha
    · rfl

theorem Model.setupActions_inactive (cs : List AnimationClip) (m : AnimationMixer)
    (hm : ∀ a ∈ m.actions, a.active = false) :
    ∀ a ∈ (Model.setupActions cs m).2.actions, a.active = false := by
  induction cs generalizing m with
  | nil => exact hm
  | cons c cs ih =>
    unfold Model.setupActions
    simp only []
    apply ih
    refine onAction_inactive _ _ _ (fun _ => rfl) ?_
    refine onAction_inactive _ _ _ (fun _ => rfl) ?_
    exact clipAction_inactive m c hm

theorem Model.reachable_activeListed (s : Model) (hs : s.Reachable) : s.ActiveListed := by
  induction hs with
  | mount => intro k a hk; simp [Model.mount, AnimationMixer.create] at hk
  | setup s cs _ _ =>
    intro k a hk hact
    have hin := Model.setupActions_inactive cs s.cleanupEffect.mixer
      (AnimationMixer.stopAllAction_inactive _) a (List.mem_iff_getElem?.mpr ⟨k, hk⟩)
    rw [hin] at hact
    cases hact
  | replay s _ _ =>
    intro k a hk hact
    have hg := Model.playAllAnimations_get s k
    unfold Model.action? at hg
    rw [hk] at hg
    by_contra hmem
    have hmem2 : k ∉ s.animationActions := hmem
    cases hb : s.mixer.actions[k]? with
    | none => simp [hb] at hg
    | some b =>
      simp only [hb, hmem2, if_false, Option.map_some', Option.some.injEq] at hg
      subst hg
      by_cases hba : b.active = true
      · simp [hba, AnimationAction.stop, AnimationAction.reset] at hact
      · simp [hba] at hact
  | tick s self ts w _ ih =>
    intro k a hk hact
    simp only [Model.animate, AnimationMixer.update, List.getElem?_map] at hk
    cases hb : s.mixer.actions[k]? with
    | none => simp [hb] at hk
    | some b =>
      simp only [hb, Option.map_some', Option.some.injEq] at hk
      subst hk
      apply ih k b hb
      by_cases hba : b.active = true
      · exact hba
      · simp [hba] at hact

/-- C3: in every reachable state of a mounted `Model` whose `animationActions`
is empty (before the setup effect has stored the controllers, or for an asset
with zero clips), `playAllAnimations` returns normally and leaves the whole
model state (mixer clock, every controller of the mixer, the list) as it was. -/
theorem Model.playAllAnimations_noop (s : Model) (hs : s.Reachable)
    (hempty : s.animationActions = []) : s.playAllAnimations = s := by
  have hinv := Model.reachable_activeListed s hs
  have hin : ∀ a ∈ s.mixer.actions, a.active = false := by
    intro a ha
    obtain ⟨k, hk⟩ := List.mem_iff_getElem?.mp ha
    by_contra hact
    have := hinv k a hk (by simpa using hact)
    simp [hempty] at this
  unfold Model.playAllAnimations
  simp only [hempty, List.foldl_nil, AnimationMixer.stopAllAction_of_inactive _ hin]
  cases s
  simp_all


end

/-! ## The setup effect -/

section
open AnimationMixer

theorem AnimationMixer.clipAction_keeps (m : AnimationMixer) (clip : AnimationClip)
    (k : Nat) (a : AnimationAction) (hk : m.actions[k]? = some a) :
    (m.clipAction clip).2.actions[k]? = some a := by
  unfold clipAction
  simp only []
  split_ifs
  · exact hk
  · have hlt : k < m.actions.length := (List.getElem?_eq_some.mp hk).1
    simp only []
    rw [List.getElem?_append_left hlt]
    exact hk

theorem AnimationMixer.clipAction_finds (m : AnimationMixer) (clip : AnimationClip) :
    ∃ a, (m.clipAction clip).2.actions[(m.clipAction clip).1]? = some a
      ∧ a.clip.uuid = clip.uuid := by
  unfold clipAction
  simp only []
  split_ifs with hlt
  · refine ⟨m.actions[m.actions.findIdx (fun a => a.clip.uuid == clip.uuid)], ?_, ?_⟩
    · exact List.getElem?_eq_getElem hlt
    · have := @List.findIdx_getElem _ (fun a : AnimationAction => a.clip.uuid == clip.uuid)
        m.actions hlt
      simpa using this
  · refine ⟨AnimationAction.create clip, ?_, rfl⟩
    simp

theorem Model.setupActions_keeps (cs : List AnimationClip) (m : AnimationMixer)
    (k : Nat) (a : AnimationAction) (hk : m.actions[k]? = some a) :
    ∃ b, (Model.setupActions cs m).2.actions[k]? = some b ∧ b.clip = a.clip
      ∧ (a.loop = .LoopRepeat ∧ a.clampWhenFinished = true →
          b.loop = .LoopRepeat ∧ b.clampWhenFinished = true) := by
  induction cs generalizing m a with
  | nil => exact ⟨a, hk, rfl, id⟩
  | cons c cs ih =>
    unfold Model.setupActions
    simp only []
    have h1 := clipAction_keeps m c k a hk
    have h2 : ∃ b, (((m.clipAction c).2.onAction (m.clipAction c).1
          (fun a => a.setLoop .LoopRepeat .undefined)).onAction (m.clipAction c).1
          (fun a => { a with clampWhenFinished := true })).actions[k]? = some b
        ∧ b.clip = a.clip
        ∧ (a.loop = .LoopRepeat ∧ a.clampWhenFinished = true →
            b.loop = .LoopRepeat ∧ b.clampWhenFinished = true) := by
      rw [onAction_get, onAction_get, h1]
      by_cases e : (m.clipAction c).1 = k
      · simp [e, AnimationAction.setLoop]
      · simp only [e, if_false, Option.map_some']
        exact ⟨a, rfl, rfl, id⟩
    obtain ⟨b, hb, hbc, hbl⟩ := h2
    obtain ⟨b2, hb2, hbc2, hbl2⟩ := ih _ b hb
    exact ⟨b2, hb2, hbc2.trans hbc, fun h => hbl2 (hbl h)⟩

theorem Model.setupActions_spec (cs : List AnimationClip) (m : AnimationMixer) :
    (Model.setupActions cs m).1.length = cs.length
    ∧ ∀ (i : Nat) (c : AnimationClip), cs[i]? = some c →
        ∃ (h : Nat) (a : AnimationAction), (Model.setupActions cs m).1[i]? = some h
          ∧ (Model.setupActions cs m).2.actions[h]? = some a
          ∧ a.clip.uuid = c.uuid ∧ a.loop = .LoopRepeat ∧ a.clampWhenFinished = true := by
  induction cs generalizing m with
  | nil => simp [Model.setupActions]
  | cons c0 cs ih =>
    unfold Model.setupActions
    simp only []
    refine ⟨by simp [(ih _).1], ?_⟩
    intro i c hi
    cases i with
    | zero =>
      simp only [List.getElem?_cons_zero, Option.some.injEq] at hi
      subst hi
      obtain ⟨a, ha, hau⟩ := clipAction_finds m c0
      have h2 : ∃ b, (((m.clipAction c0).2.onAction (m.clipAction c0).1
            (fun a => a.setLoop .LoopRepeat .undefined)).onAction (m.clipAction c0).1
            (fun a => { a with clampWhenFinished := true })).actions[(m.clipAction c0).1]?
              = some b
          ∧ b.clip = a.clip ∧ b.loop = .LoopRepeat ∧ b.clampWhenFinished = true := by
        rw [onAction_get, onAction_get, ha]
        simp [AnimationAction.setLoop]
      obtain ⟨b, hb, hbc, hbl, hbf⟩ := h2
      obtain ⟨b2, hb2, hbc2, hbl2⟩ := Model.setupActions_keeps cs _ _ b hb
      refine ⟨(m.clipAction c0).1, b2, by simp, hb2, ?_, hbl2 ⟨hbl, hbf⟩⟩
      rw [hbc2, hbc, hau]
    | succ j =>
      simp only [List.getElem?_cons_succ] at hi
      obtain ⟨h, a, hh, ha, rest⟩ := (ih _).2 j c hi
      exact ⟨h, a, by simpa using hh, ha, rest⟩

/-- C8: for every clip list `cs` of the loaded asset and every state of the
model, the setup effect stores a controller list of the same length as `cs`
whose `i`-th element is a controller of this model's mixer for the `i`-th clip
(same `uuid`), with loop mode `LoopRepeat` and `clampWhenFinished` true; for an
asset with zero clips the list is empty. -/
theorem Model.setupEffect_builds (cs : List AnimationClip) (s : Model) :
    (Model.setupEffect cs s).animationActions.length = cs.length
    ∧ (∀ (i : Nat) (c : AnimationClip), cs[i]? = some c →
        ∃ (h : Nat) (a : AnimationAction), (Model.setupEffect cs s).animationActions[i]? = some h
          ∧ (Model.setupEffect cs s).action? h = some a
          ∧ a.clip.uuid = c.uuid ∧ a.loop = .LoopRepeat ∧ a.clampWhenFinished = true)
    ∧ (Model.setupEffect [] s).animationActions = [] :=
  ⟨(Model.setupActions_spec cs s.mixer).1, (Model.setupActions_spec cs s.mixer).2, rfl⟩

end

/-! ## Ticks, the click handler, the preload paths -/

section
open AnimationMixer

theorem Model.animate_time (self : Slot) (ts : ℚ) (s : Model) (w : Window) :
    (Model.animate self ts s w).1.mixer.time = s.mixer.time + 1 / 100 := rfl

theorem Model.runTicks_time (self : Slot) (tss : List ℚ) (p : Model × Window) :
    (Model.runTicks self tss p).1.mixer.time = p.1.mixer.time + (tss.length : ℚ) / 100 := by
  induction tss generalizing p with
  | nil => simp [Model.runTicks]
  | cons ts tss ih =>
    rw [Model.runTicks, ih, Model.animate_time, List.length_cons]
    push_cast
    ring

/-- C5: each invocation of `animate` advances the mixer's clock by exactly
`1/100`, whatever timestamp the frame carries; hence after the `n` invocations
of a run the clock has advanced by exactly `n/100`, and two runs with the same
number of ticks but different timestamps end with the same clock. -/
theorem Model.animate_fixed_delta (self : Slot) (s : Model) (w : Window) :
    (∀ ts : ℚ, (Model.animate self ts s w).1.mixer.time = s.mixer.time + 1 / 100)
    ∧ (∀ tss : List ℚ, (Model.runTicks self tss (s, w)).1.mixer.time
          = s.mixer.time + (tss.length : ℚ) / 100)
    ∧ (∀ tss tss2 : List ℚ, tss.length = tss2.length →
        (Model.runTicks self tss (s, w)).1.mixer.time
          = (Model.runTicks self tss2 (s, w)).1.mixer.time) := by
  refine ⟨fun ts => Model.animate_time self ts s w,
    fun tss => Model.runTicks_time self tss (s, w), ?_⟩
  intro tss tss2 h
  rw [Model.runTicks_time, Model.runTicks_time, h]

theorem GLBViewer.playAllModels_eq (s : GLBViewer) :
    GLBViewer.playAllModels s = .ok
      { playing := true
        nitrogenRef := s.nitrogenRef.map Model.playAllAnimations
        oxygenRef := s.oxygenRef.map Model.playAllAnimations
        timeouts := s.timeouts ++ [s.now + 1000]
        now := s.now
        calls := s.calls ++ (if s.nitrogenRef.isSome then [Slot.nitrogen] else [])
                  ++ (if s.oxygenRef.isSome then [Slot.oxygen] else []) } := by
  cases s with
  | mk playing n o timeouts now calls =>
    cases n <;> cases o <;>
      simp [GLBViewer.playAllModels, GLBViewer.callPlayAllAnimations, GLBViewer.current,
        GLBViewer.setCurrent, GLBViewer.cooldown, bind, Except.bind, pure, Except.pure]

/-- C6: for each of the four combinations of the two handles being present or
empty, `playAllModels` returns normally; it calls `playAllAnimations` once on
each handle that is present, the nitrogen one first, and not at all on an empty
handle (where the unguarded call would raise a `TypeError`); in all four cases
`playing` becomes true and one timeout of the cooldown length is scheduled. -/
theorem GLBViewer.playAllModels_guarded (s : GLBViewer) :
    GLBViewer.playAllModels s = .ok
      { playing := true
        nitrogenRef := s.nitrogenRef.map Model.playAllAnimations
        oxygenRef := s.oxygenRef.map Model.playAllAnimations
        timeouts := s.timeouts ++ [s.now + 1000]
        now := s.now
        calls := s.calls ++ (if s.nitrogenRef.isSome then [Slot.nitrogen] else [])
                  ++ (if s.oxygenRef.isSome then [Slot.oxygen] else []) }
    ∧ (∀ slot, s.current slot = none →
        GLBViewer.callPlayAllAnimations slot s = .error "TypeError") := by
  refine ⟨GLBViewer.playAllModels_eq s, ?_⟩
  intro slot h
  simp [GLBViewer.callPlayAllAnimations, h]

/-- C10: the two preload paths and the two mounted paths are equal once letter
case is removed but are different strings; so in a cache keyed by the exact
path that starts empty, after both preload calls neither mounted path is a key
and the lookup of each mounted path misses. -/
theorem preload_case_mismatch :
    preloadPaths.map lowerCase = mountedPaths.map lowerCase
    ∧ (∀ p ∈ preloadPaths, p ∉ mountedPaths)
    ∧ preloaded = preloadPaths
    ∧ (∀ p ∈ mountedPaths, p ∉ preloaded ∧ cacheHit preloaded p = false) := by
  refine ⟨by decide, by decide, by decide, by decide⟩

end

/-! ## The cooldown of the button -/

section
open AnimationMixer

/-- The shell is idle with no timeout pending, or cooling down with exactly one. -/
theorem GLBViewer.cooldown_inv (s : GLBViewer) (hs : s.Reachable) :
    (s.playing = false ∧ s.timeouts = []) ∨ (s.playing = true ∧ ∃ d, s.timeouts = [d]) := by
  induction hs with
  | mount => exact Or.inl ⟨rfl, rfl⟩
  | step s s2 e _ hstep ih =>
    cases hstep with
    | click _ hd hp =>
      rw [GLBViewer.playAllModels_eq] at hp
      injection hp with hp
      subst hp
      rcases ih with ⟨_, ht⟩ | ⟨hpl, _⟩
      · exact Or.inr ⟨rfl, s.now + 1000, by simp [ht]⟩
      · simp [GLBViewer.disabled, hpl] at hd
    | timeout due hmem hdue =>
      rcases ih with ⟨_, ht⟩ | ⟨_, d, ht⟩
      · simp [ht] at hmem
      · simp only [ht, List.mem_singleton] at hmem
        subst hmem
        exact Or.inl ⟨rfl, by simp [GLBViewer.fireTimeout, ht]⟩
    | elapse ms => exact ih
    | models n o => exact ih

/-- C2: the shell starts idle (`playing = false`, nothing scheduled).  In every
reachable idle state a click is dispatched and moves the shell to cooldown
(button disabled) with exactly one pending timeout, due `1000` ms later.  In
every reachable state at most one timeout is pending and the button is disabled
exactly when one is; while the button is disabled no click is dispatched; a
pending timeout fires no earlier than its due time, and firing it re-enables
the button with nothing left pending; and after any step from a cooldown state
that ends before the due time the button is still disabled with the same
timeout pending. -/
theorem GLBViewer.cooldown_machine :
    (GLBViewer.mount.playing = false ∧ GLBViewer.mount.timeouts = [])
    ∧ (∀ s : GLBViewer, s.Reachable → s.disabled = false →
        (∃ s2, GLBViewer.Step s .click s2)
        ∧ ∀ s2, GLBViewer.Step s .click s2 →
            s2.disabled = true ∧ s2.timeouts = [s.now + 1000] ∧ s2.now = s.now)
    ∧ (∀ s : GLBViewer, s.Reachable →
        s.timeouts.length ≤ 1 ∧ (s.disabled = true ↔ s.timeouts ≠ []))
    ∧ (∀ s : GLBViewer, s.Reachable → s.disabled = true →
        ∀ s2, ¬ GLBViewer.Step s .click s2)
    ∧ (∀ (s : GLBViewer) (due : Nat) (s2 : GLBViewer), s.Reachable →
        GLBViewer.Step s (.timeout due) s2 →
          due ≤ s.now ∧ s2.disabled = false ∧ s2.timeouts = [])
    ∧ (∀ (s : GLBViewer) (due : Nat) (e : GLBViewer.Event) (s2 : GLBViewer), s.Reachable →
        due ∈ s.timeouts → GLBViewer.Step s e s2 → s2.now < due →
          s2.disabled = true ∧ s2.timeouts = [due]) := by
  refine ⟨⟨rfl, rfl⟩, ?_, ?_, ?_, ?_, ?_⟩
  · intro s hs hd
    have hinv := GLBViewer.cooldown_inv s hs
    have ht : s.timeouts = [] := by
      rcases hinv with ⟨_, ht⟩ | ⟨hpl, _⟩
      · exact ht
      · simp [GLBViewer.disabled, hpl] at hd
    refine ⟨⟨_, GLBViewer.Step.click s _ hd (GLBViewer.playAllModels_eq s)⟩, ?_⟩
    intro s2 hstep
    cases hstep with
    | click _ _ hp =>
      rw [GLBViewer.playAllModels_eq] at hp
      injection hp with hp
      subst hp
      simp [GLBViewer.disabled, ht]
  · intro s hs
    rcases GLBViewer.cooldown_inv s hs with ⟨hpl, ht⟩ | ⟨hpl, d, ht⟩
    · simp [GLBViewer.disabled, hpl, ht]
    · simp [GLBViewer.disabled, hpl, ht]
  · intro s _ hd s2 hstep
    cases hstep with
    | click _ hd2 _ => rw [hd] at hd2; cases hd2
  · intro s due s2 hs hstep
    cases hstep with
    | timeout _ hmem hdue =>
      rcases GLBViewer.cooldown_inv s hs with ⟨_, ht⟩ | ⟨_, d, ht⟩
      · simp [ht] at hmem
      · simp only [ht, List.mem_singleton] at hmem
        subst hmem
        exact ⟨hdue, rfl, by simp [GLBViewer.fireTimeout, ht]⟩
  · intro s due e s2 hs hmem hstep hlt
    rcases GLBViewer.cooldown_inv s hs with ⟨_, ht⟩ | ⟨hpl, d, ht⟩
    · simp [ht] at hmem
    · simp only [ht, List.mem_singleton] at hmem
      subst hmem
      cases hstep with
      | click _ hd _ => simp [GLBViewer.disabled, hpl] at hd
      | timeout d2 hmem2 hdue =>
        simp only [ht, List.mem_singleton] at hmem2
        subst hmem2
        simp only [GLBViewer.fireTimeout] at hlt
        omega
      | elapse ms => exact ⟨hpl, ht⟩
      | models n o => exact ⟨hpl, ht⟩

end

/-! ## The tick loop and unmount -/

section
open AnimationMixer

theorem TickLoop.filter_cancel (self : Slot) (l : List (Nat × Option Slot)) (h : Nat) :
    (l.filter (fun e => e.1 != h)).filter (fun e => e.2 == some self)
      = (l.filter (fun e => e.2 == some self)).filter (fun e => e.1 != h) := by
  rw [List.filter_filter, List.filter_filter]
  congr 1
  funext e
  exact Bool.and_comm _ _

theorem TickLoop.filter_other (self : Slot) (l : List (Nat × Option Slot)) (h : Nat)
    (o : Option Slot) (ho : o ≠ some self) :
    (l.filter (fun e => e != (h, o))).filter (fun e => e.2 == some self)
      = l.filter (fun e => e.2 == some self) := by
  rw [List.filter_filter]
  apply List.filter_congr
  intro e _
  by_cases he : e.2 = some self
  · have hne : e ≠ (h, o) := fun e2 => ho (by rw [← he, e2])
    simp [he, hne]
  · simp [he]

/-- While mounted, the one pending `animate` callback is the one whose handle is
in `animationFrameId`; once unmounted, none is pending. -/
theorem TickLoop.pending_inv (self : Slot) (cs : List AnimationClip) (w : Window)
    (hw : ∀ e ∈ w.frameCallbacks, e.2 ≠ some self) (t : TickLoop)
    (ht : TickLoop.Reachable self cs w t) :
    (t.mounted = true → ∃ h, t.model.animationFrameId = some h
        ∧ TickLoop.pending self t = [(h, some self)])
    ∧ (t.mounted = false → TickLoop.pending self t = []) := by
  induction ht with
  | start =>
    refine ⟨fun _ => ⟨w.frameCallbackId + 1, rfl, ?_⟩, fun h => by cases h⟩
    have hnone : w.frameCallbacks.filter (fun e => e.2 == some self) = [] := by
      rw [List.filter_eq_nil_iff]
      intro e he
      simpa using hw e he
    simp [TickLoop.pending, TickLoop.start, Model.tickEffect, Model.animate,
      requestAnimationFrame, List.filter_append, hnone]
  | step t t2 _ hstep ih =>
    cases hstep with
    | frame h ts hmem =>
      have hp : (h, some self) ∈ TickLoop.pending self t := by
        simp [TickLoop.pending, hmem]
      cases hm : t.mounted with
      | false => rw [ih.2 hm] at hp; cases hp
      | true =>
        obtain ⟨h0, _, hpend⟩ := ih.1 hm
        rw [hpend] at hp
        simp only [List.mem_singleton, Prod.mk.injEq, and_true] at hp
        subst hp
        refine ⟨fun _ => ⟨t.window.frameCallbackId + 1, rfl, ?_⟩, fun h2 => ?_⟩
        · simp only [TickLoop.pending] at hpend
          simp only [TickLoop.pending, TickLoop.runFrame, Model.animate, requestAnimationFrame,
            cancelAnimationFrame, List.filter_append, TickLoop.filter_cancel, hpend]
          simp
        · simp [TickLoop.runFrame, hm] at h2
    | otherRequest o ho =>
      have hkeep : TickLoop.pending self
          { t with window := (requestAnimationFrame t.window o).2 } = TickLoop.pending self t := by
        simp [TickLoop.pending, requestAnimationFrame, List.filter_append, ho]
      exact ⟨fun hm => by rw [hkeep]; exact ih.1 hm, fun hm => by rw [hkeep]; exact ih.2 hm⟩
    | otherDone h o ho _ =>
      have hkeep : TickLoop.pending self
          { t with window := { t.window with
              frameCallbacks := t.window.frameCallbacks.filter (fun e => e != (h, o)) } }
            = TickLoop.pending self t := by
        simp only [TickLoop.pending]
        exact TickLoop.filter_other self _ h o ho
      exact ⟨fun hm => by rw [hkeep]; exact ih.1 hm, fun hm => by rw [hkeep]; exact ih.2 hm⟩
    | replay hm => exact ⟨fun h2 => ih.1 h2, fun h2 => ih.2 h2⟩
    | unmount hm =>
      refine ⟨fun h2 => (by cases h2), fun _ => ?_⟩
      obtain ⟨h0, hid, hpend⟩ := ih.1 hm
      simp only [TickLoop.pending] at hpend
      simp only [TickLoop.pending, TickLoop.unmount, Model.tickCleanup, cancelAnimationFrame, hid,
        TickLoop.filter_cancel, hpend]
      simp

/-- Once no `animate` callback is pending on an unmounted model, no step
changes that, the model, or the number of `animate` invocations. -/
theorem TickLoop.steps_after_unmount (self : Slot) (t t2 : TickLoop)
    (hm : t.mounted = false) (hp : TickLoop.pending self t = [])
    (hsteps : TickLoop.Steps self t t2) :
    t2.mounted = false ∧ TickLoop.pending self t2 = []
      ∧ t2.animateCalls = t.animateCalls ∧ t2.model = t.model := by
  induction hsteps with
  | refl => exact ⟨hm, hp, rfl, rfl⟩
  | step t2 t3 _ hstep ih =>
    obtain ⟨hm2, hp2, hc2, hmod2⟩ := ih
    cases hstep with
    | frame h ts hmem =>
      have : (h, some self) ∈ TickLoop.pending self t2 := by
        simp [TickLoop.pending, hmem]
      rw [hp2] at this
      cases this
    | otherRequest o ho =>
      refine ⟨hm2, ?_, hc2, hmod2⟩
      simp only [TickLoop.pending] at hp2
      simp [TickLoop.pending, requestAnimationFrame, List.filter_append, ho, hp2]
    | otherDone h o ho _ =>
      refine ⟨hm2, ?_, hc2, hmod2⟩
      simp only [TickLoop.pending] at hp2 ⊢
      rw [TickLoop.filter_other self _ h o ho, hp2]
    | replay hm3 => rw [hm2] at hm3; cases hm3
    | unmount hm3 => rw [hm2] at hm3; cases hm3

/-- C4: for the tick loop of a `Model` mounted in a window that holds no
callback of this instance yet: in every reachable mounted state exactly one
`animate` callback is pending and `animationFrameId` is its handle; in every
reachable unmounted state none is pending; and from an unmounted state, however
many ticks ran before, every further run of steps leaves no callback of this
instance pending, never invokes `animate` again and never advances the mixer's
clock (the model stays as the unmount left it). -/
theorem TickLoop.unmount_stops (self : Slot) (cs : List AnimationClip) (w : Window)
    (hw : ∀ e ∈ w.frameCallbacks, e.2 ≠ some self) :
    (∀ t, TickLoop.Reachable self cs w t → t.mounted = true →
        ∃ h, t.model.animationFrameId = some h ∧ TickLoop.pending self t = [(h, some self)])
    ∧ (∀ t, TickLoop.Reachable self cs w t → t.mounted = false →
        TickLoop.pending self t = [])
    ∧ (∀ t t2, TickLoop.Reachable self cs w t → t.mounted = false →
        TickLoop.Steps self t t2 →
          TickLoop.pending self t2 = [] ∧ t2.animateCalls = t.animateCalls
            ∧ t2.model.mixer.time = t.model.mixer.time ∧ t2.model = t.model) := by
  refine ⟨fun t ht => (TickLoop.pending_inv self cs w hw t ht).1,
    fun t ht => (TickLoop.pending_inv self cs w hw t ht).2, ?_⟩
  intro t t2 ht hm hsteps
  have hp := (TickLoop.pending_inv self cs w hw t ht).2 hm
  obtain ⟨_, hp2, hc, hmod⟩ := TickLoop.steps_after_unmount self t t2 hm hp hsteps
  exact ⟨hp2, hc, by rw [hmod], hmod⟩

end

/-! ## Frame of a replay -/

section
open AnimationMixer

theorem Model.playAllAnimations_keeps (m : Model) (k : Nat) (a : AnimationAction)
    (ha : m.action? k = some a) :
    ∃ b, m.playAllAnimations.action? k = some b ∧ b.clip = a.clip ∧ b.loop = a.loop
      ∧ b.clampWhenFinished = a.clampWhenFinished := by
  unfold Model.action? at ha
  rw [Model.playAllAnimations_get, ha]
  by_cases hk : k ∈ m.animationActions <;> cases hact : a.active <;>
    simp [hk, hact, AnimationAction.stop, AnimationAction.reset, AnimationAction.play]

theorem Model.playAllAnimations_length (m : Model) :
    m.playAllAnimations.mixer.actions.length = m.mixer.actions.length := by
  simp [Model.playAllAnimations, AnimationMixer.foldl_onAction_length,
    AnimationMixer.stopAllAction]

theorem Model.playAllAnimations_time (m : Model) :
    m.playAllAnimations.mixer.time = m.mixer.time := by
  simp [Model.playAllAnimations, AnimationMixer.foldl_onAction_time,
    AnimationMixer.stopAllAction_time]

/-- C7: a call of `playAllAnimations` through the handle of one slot replaces
that slot's model by its replayed state, in which the mixer clock, the number
of clip controllers and each controller's clip, loop mode and clamp-on-finish
flag are as before; the other slot's model and the shell's `playing` flag are
unchanged. -/
theorem GLBViewer.callPlayAllAnimations_frame (slot : Slot) (s s2 : GLBViewer)
    (hcall : GLBViewer.callPlayAllAnimations slot s = .ok s2) :
    ∃ m, s.current slot = some m ∧ s2.current slot = some m.playAllAnimations
      ∧ m.playAllAnimations.mixer.time = m.mixer.time
      ∧ m.playAllAnimations.animationActions.length = m.animationActions.length
      ∧ m.playAllAnimations.mixer.actions.length = m.mixer.actions.length
      ∧ (∀ k a, m.action? k = some a →
          ∃ b, m.playAllAnimations.action? k = some b ∧ b.clip = a.clip ∧ b.loop = a.loop
            ∧ b.clampWhenFinished = a.clampWhenFinished)
      ∧ (∀ other, other ≠ slot → s2.current other = s.current other)
      ∧ s2.playing = s.playing := by
  unfold GLBViewer.callPlayAllAnimations at hcall
  cases hm : s.current slot with
  | none => simp [hm] at hcall
  | some m =>
    simp only [hm, Except.ok.injEq] at hcall
    subst hcall
    refine ⟨m, rfl, ?_, Model.playAllAnimations_time m, rfl, Model.playAllAnimations_length m,
      Model.playAllAnimations_keeps m, ?_, ?_⟩
    · cases slot <;> rfl
    · intro other hne
      cases slot <;> cases other <;> first | rfl | exact absurd rfl hne
    · cases slot <;> rfl

theorem GLBViewer.callPlayAllAnimations_frame_witness :
    GLBViewer.callPlayAllAnimations .nitrogen sampleViewer = .ok sampleViewerReplayed
    ∧ sampleViewerReplayed.oxygenRef = sampleViewer.oxygenRef
    ∧ sampleViewerReplayed.playing = sampleViewer.playing :=
  have hcall : GLBViewer.callPlayAllAnimations .nitrogen sampleViewer
      = .ok sampleViewerReplayed := rfl
  have h := GLBViewer.callPlayAllAnimations_frame .nitrogen sampleViewer sampleViewerReplayed hcall
  ⟨hcall, h.elim fun _ hm => hm.2.2.2.2.2.2.1 Slot.oxygen (by decide),
    h.elim fun _ hm => hm.2.2.2.2.2.2.2⟩

end

/-! ## Reachable states are well formed -/

section
open AnimationMixer

theorem Model.setupActions_valid (cs : List AnimationClip) (m : AnimationMixer) :
    ∀ h ∈ (Model.setupActions cs m).1, h < (Model.setupActions cs m).2.actions.length := by
  intro h hh
  obtain ⟨i, hi⟩ := List.mem_iff_getElem?.mp hh
  have hlen := (Model.setupActions_spec cs m).1
  have hilt : i < cs.length := by
    rw [← hlen]; exact (List.getElem?_eq_some.mp hi).1
  obtain ⟨h2, a, hh2, ha, _⟩ :=
    (Model.setupActions_spec cs m).2 i cs[i] (List.getElem?_eq_getElem hilt)
  rw [hi] at hh2
  injection hh2 with hh2
  subst hh2
  exact (List.getElem?_eq_some.mp ha).1

/-- In every reachable state of a mounted `Model` each element of
`animationActions` is a controller of the model's mixer. -/
theorem Model.reachable_wellFormed (s : Model) (hs : s.Reachable) : s.WellFormed := by
  induction hs with
  | mount => intro h hh; simp [Model.mount] at hh
  | setup s cs _ _ => exact Model.setupActions_valid cs _
  | replay s _ ih =>
    intro h hh
    rw [Model.playAllAnimations_length]
    exact ih h hh
  | tick s self ts w _ ih =>
    intro h hh
    have := ih h hh
    simpa [Model.animate, AnimationMixer.update] using this

end

/-! ## One tick after a replay -/

section
open AnimationMixer

theorem AnimationAction.restart_eq (a : AnimationAction) :
    (if a.active then a.stop else a).reset.play = a.reset.play := by
  cases h : a.active <;> simp [h, stop, reset, play]

/-- One tick of a controller that has just been restarted, for a clip longer
than the tick's delta: in every loop mode the cursor moves from 0 to the delta
without reaching the clip's end, and the controller is still running. -/
theorem AnimationAction.updateTime_restarted (a : AnimationAction) (δ : ℚ) (hδ : 0 < δ)
    (hlt : δ < a.clip.duration) :
    (a.reset.play.updateTime δ).time = .num δ
    ∧ (a.reset.play.updateTime δ).clip = a.clip
    ∧ (a.reset.play.updateTime δ).isRunning = true := by
  have hne : δ ≠ 0 := ne_of_gt hδ
  have hnn : ¬ δ < 0 := not_lt.mpr hδ.le
  have hnw : ¬ a.clip.duration ≤ δ := not_le.mpr hlt
  by_cases hloop : a.loop = .LoopOnce
  · simp [updateTime, reset, play, hloop, hne, hnw, hnn, isRunning]
  · simp [updateTime, reset, play, hloop, hne, hnw, hnn, isRunning]

theorem AnimationAction.update_restarted (a : AnimationAction) (t : ℚ)
    (hlt : 1 / 100 < a.clip.duration) :
    (a.reset.play.update t (1 / 100) (SignType.sign (1 / 100 : ℚ))).time = .num (1 / 100)
    ∧ (a.reset.play.update t (1 / 100) (SignType.sign (1 / 100 : ℚ))).clip = a.clip
    ∧ (a.reset.play.update t (1 / 100) (SignType.sign (1 / 100 : ℚ))).isRunning = true := by
  have hupd : a.reset.play.update t (1 / 100) (SignType.sign (1 / 100 : ℚ))
      = a.reset.play.updateTime (1 / 100) := by
    simp [update, reset, play]
  rw [hupd]
  exact AnimationAction.updateTime_restarted a (1 / 100) (by norm_num) hlt

/-- A replay and one tick, seen at one element of `animationActions`. -/
theorem Model.tick_after_replay (m : Model) (hwf : m.WellFormed) (h : Nat)
    (hh : h ∈ m.animationActions) :
    ∃ a, m.playAllAnimations.action? h = some a ∧ a.time = .num 0 ∧ a.isRunning = true
      ∧ (1 / 100 < a.clip.duration → ∀ (self : Slot) (ts : ℚ) (w : Window),
          ∃ b, (Model.animate self ts m.playAllAnimations w).1.action? h = some b
            ∧ b.clip = a.clip ∧ b.isRunning = true ∧ b.time = .num (1 / 100)
            ∧ b.time.positive = true) := by
  have hvalid := hwf h hh
  obtain ⟨a0, ha0⟩ : ∃ a0, m.mixer.actions[h]? = some a0 :=
    ⟨m.mixer.actions[h], List.getElem?_eq_getElem hvalid⟩
  have hplay : m.playAllAnimations.action? h = some a0.reset.play := by
    rw [Model.playAllAnimations_get, ha0]
    simp [hh, AnimationAction.restart_eq]
  refine ⟨a0.reset.play, hplay, rfl, rfl, ?_⟩
  intro hlt self ts w
  have hlt0 : 1 / 100 < a0.clip.duration := hlt
  obtain ⟨ht, hc, hr⟩ := AnimationAction.update_restarted a0 (m.mixer.time + 1 / 100) hlt0
  have htime : m.playAllAnimations.mixer.time = m.mixer.time := by
    simp [Model.playAllAnimations, AnimationMixer.foldl_onAction_time,
      AnimationMixer.stopAllAction_time]
  refine ⟨_, ?_, hc, hr, ht, by rw [ht]; simp [Cursor.positive]⟩
  unfold Model.action? at hplay ⊢
  simp only [Model.animate, AnimationMixer.update, List.getElem?_map, hplay, Option.map_some']
  simp [htime, AnimationAction.reset, AnimationAction.play]

end

/-! ## The click followed by a tick -/

section
open AnimationMixer

/-- C9, as amended: with both models mounted and their controller lists built,
one click returns normally and leaves every clip controller of both models
running at time cursor 0; after one further tick of either model each of its
controllers whose clip is longer than the tick's delta `1/100` is still running
with time cursor exactly `1/100`, which is strictly greater than 0. -/
theorem GLBViewer.click_then_tick (s : GLBViewer) (n o : Model)
    (hn : s.nitrogenRef = some n) (ho : s.oxygenRef = some o)
    (hwn : n.WellFormed) (hwo : o.WellFormed) :
    ∃ s2, GLBViewer.playAllModels s = .ok s2
      ∧ s2.nitrogenRef = some n.playAllAnimations
      ∧ s2.oxygenRef = some o.playAllAnimations
      ∧ ∀ p ∈ [(Slot.nitrogen, n), (Slot.oxygen, o)], ∀ h ∈ p.2.animationActions,
          ∃ a, p.2.playAllAnimations.action? h = some a ∧ a.time = .num 0
            ∧ a.isRunning = true
            ∧ (1 / 100 < a.clip.duration → ∀ (ts : ℚ) (w : Window),
                ∃ b, (Model.animate p.1 ts p.2.playAllAnimations w).1.action? h = some b
                  ∧ b.clip = a.clip ∧ b.isRunning = true ∧ b.time = .num (1 / 100)
                  ∧ b.time.positive = true) := by
  refine ⟨_, GLBViewer.playAllModels_eq s, by simp [hn], by simp [ho], ?_⟩
  intro p hp h hh
  simp only [List.mem_cons, List.mem_singleton, List.not_mem_nil, or_false] at hp
  rcases hp with rfl | rfl
  · obtain ⟨a, ha, ht, hr, htick⟩ := Model.tick_after_replay n hwn h hh
    exact ⟨a, ha, ht, hr, fun hlt ts w => htick hlt Slot.nitrogen ts w⟩
  · obtain ⟨a, ha, ht, hr, htick⟩ := Model.tick_after_replay o hwo h hh
    exact ⟨a, ha, ht, hr, fun hlt ts w => htick hlt Slot.oxygen ts w⟩

/-- A looping controller for a clip exactly as long as the tick's delta is back
at time cursor 0 after one tick: the cursor has wrapped around the clip once. -/
theorem Model.tick_wraps_shortClip :
    (Model.animate .nitrogen 0 shortModel.playAllAnimations sampleWindow).1.action? 0
      = some shortActionTicked := by
  decide!

end

/-! ## Instances on the sample states -/

section
open AnimationMixer

/-- The restart property at `sampleModel`, whose controllers were paused in
mid-loop and stopped. -/
theorem Model.playAllAnimations_restarts_all_witness :
    sampleModel.WellFormed
    ∧ ∀ h ∈ sampleModel.animationActions, ∃ a, sampleModel.playAllAnimations.action? h = some a
        ∧ a.time = .num 0 ∧ a.paused = false ∧ a.isRunning = true :=
  ⟨by decide, Model.playAllAnimations_restarts_all sampleModel (by decide)⟩

/-- The no-op property at `tickedEmptyModel`, a reachable state with an empty
controller list. -/
theorem Model.playAllAnimations_noop_witness :
    tickedEmptyModel.Reachable ∧ tickedEmptyModel.animationActions = []
    ∧ tickedEmptyModel.playAllAnimations = tickedEmptyModel :=
  have hr : tickedEmptyModel.Reachable :=
    Model.Reachable.tick _ _ _ _ (Model.Reachable.setup _ [] Model.Reachable.mount)
  ⟨hr, rfl, Model.playAllAnimations_noop tickedEmptyModel hr rfl⟩

/-- The tick loop mounted in `sampleWindow`: after one frame and the unmount no
callback of the model is pending. -/
theorem TickLoop.unmount_stops_witness :
    (∀ e ∈ sampleWindow.frameCallbacks, e.2 ≠ some Slot.nitrogen)
    ∧ TickLoop.pending .nitrogen stoppedLoop = [] :=
  have hw : ∀ e ∈ sampleWindow.frameCallbacks, e.2 ≠ some Slot.nitrogen := by decide
  have hr : TickLoop.Reachable .nitrogen [longClip] sampleWindow stoppedLoop :=
    TickLoop.Reachable.step _ _
      (TickLoop.Reachable.step _ _ TickLoop.Reachable.start
        (TickLoop.Step.frame _ 4 0 (by decide)))
      (TickLoop.Step.unmount _ rfl)
  ⟨hw, (TickLoop.unmount_stops .nitrogen [longClip] sampleWindow hw).2.1 stoppedLoop hr rfl⟩

/-- The click on `sampleViewer`, whose models hold a paused, a stopped and a
fresh controller. -/
theorem GLBViewer.click_then_tick_witness :
    sampleModel.WellFormed ∧ longModel.WellFormed
    ∧ ∃ s2, GLBViewer.playAllModels sampleViewer = .ok s2
        ∧ s2.nitrogenRef = some sampleModel.playAllAnimations
        ∧ s2.oxygenRef = some longModel.playAllAnimations :=
  ⟨by decide, by decide,
    (GLBViewer.click_then_tick sampleViewer sampleModel longModel rfl rfl
      (by decide) (by decide)).imp fun _ h => ⟨h.1, h.2.1, h.2.2.1⟩⟩

/-- C9, as stated, fails: for a shell whose models play a clip of duration
zero, it is not the case that after one click and one tick every clip
controller of the nitrogen model has a time cursor strictly greater than 0; the
controller's cursor is `NaN`, and `NaN > 0` is false. -/
theorem GLBViewer.click_then_tick_counterexample :
    ¬ (∀ s2, GLBViewer.playAllModels stillViewer = .ok s2 →
        ∀ m ∈ s2.nitrogenRef, ∀ h ∈ m.animationActions,
          ∀ a ∈ (Model.animate .nitrogen 0 m sampleWindow).1.action? h,
            a.time.positive = true) := by
  intro hall
  have hpos := hall stillViewerClicked rfl stillModel.playAllAnimations rfl 0 (by decide!)
    stillActionTicked (by decide!)
  exact absurd hpos (by decide)

end

end App
